import Mathlib

/-!
# Verification of the UrbitIrcBridge relay core

Shallow embedding of the reconnect strategy (`ExponentialBackoff` in
`irc_bot.py`), the channel-membership tracker event handlers of
`SingleServerIRCBot`, the pairing-based message matching of
`BridgeIrcBot.on_pubmsg` / `urbit_bot.urbit_message_handler`, and the
sink-side session management of `urbit_client` in `irc_bridge.py`.

Python exceptions are modelled by `Option` / explicit result types; the
uniform jitter draw `random.random()` is modelled as a rational number
in `[0,1)` passed as a parameter; machine integers are `Nat`.
Dictionary keys (channel names, nicknames) are treated as opaque
strings compared by equality.
-/

/-! ## ExponentialBackoff (irc_bot.py lines 22-63) -/

/-- Class attribute `min_interval = 3` of `ExponentialBackoff`. -/
def min_interval : ℕ := 3

/-- Class attribute `max_interval = 5` of `ExponentialBackoff`. -/
def max_interval : ℕ := 5

/-- The delay computation of `ExponentialBackoff.run` (lines 44-54),
parametrised by the interval bounds, the attempt value drawn from the
counter, and the jitter draw `random.random()`:
`intvl = 2 ** attempt - 1; intvl = min(intvl, ma);`
`intvl = int(intvl * jitter); intvl = max(intvl, mi)`.
The product is non-negative for jitter in `[0,1)`, so Python's
`int()` truncation is the floor. -/
def backoffDelayGen (mi ma attempt : ℕ) (jitter : ℚ) : ℕ :=
  let intvl1 : ℕ := 2 ^ attempt - 1
  let intvl2 : ℕ := min intvl1 ma
  let intvl3 : ℕ := (⌊(intvl2 : ℚ) * jitter⌋).toNat
  max intvl3 mi

/-- The delay computation with the class-default bounds (3 and 5),
as used by the default-constructed strategy. -/
def backoffDelay (attempt : ℕ) (jitter : ℚ) : ℕ :=
  backoffDelayGen min_interval max_interval attempt jitter

/-- Follows the claim's words: the scheduled delay is
`max(min_interval, int(min(2^attempt - 1, max_interval) * jitter))`,
jitter multiplication and integer truncation before the floor at
`min_interval`. -/
def specBackoffDelay (attempt : ℕ) (jitter : ℚ) : ℕ :=
  max min_interval ((⌊((min (2 ^ attempt - 1) max_interval : ℕ) : ℚ) * jitter⌋).toNat)

/-- Mutable state of one `ExponentialBackoff` instance:
`counter` is the value the shared `itertools.count(1)` will yield next,
`check_scheduled` is the `_check_scheduled` flag, and `lastDelay`
records the delay passed to `execute_after` at the last scheduling. -/
structure ExponentialBackoffState where
  counter : ℕ
  check_scheduled : Bool
  lastDelay : ℕ
deriving DecidableEq, Repr

/-- State of a freshly constructed `ExponentialBackoff()`:
`attempt_count = itertools.count(1)`, `_check_scheduled = False`. -/
def freshBackoff : ExponentialBackoffState :=
  { counter := 1, check_scheduled := false, lastDelay := 0 }

/-- One invocation of `ExponentialBackoff.run` (lines 37-57).
`none` models the `ircBotException` raise.  Note the two separate
`next(self.attempt_count)` draws: one in the exhaustion guard, one in
the interval computation. -/
def ExponentialBackoffState.run (b : ExponentialBackoffState) (jitter : ℚ) :
    Option ExponentialBackoffState :=
  let n := b.counter
  let b1 : ExponentialBackoffState := { b with counter := n + 1 }
  if n > 5 then none
  else if b1.check_scheduled then some b1
  else
    let a := b1.counter
    let b2 : ExponentialBackoffState := { b1 with counter := a + 1 }
    some { b2 with check_scheduled := true, lastDelay := backoffDelay a jitter }

/-- `k` successive invocations of `run` with no intervening scheduled
check (the connection never successfully reconnects and the scheduler
does not fire); `none` as soon as one invocation raises. -/
def ExponentialBackoffState.runN (b : ExponentialBackoffState) (jitter : ℚ) :
    ℕ → Option ExponentialBackoffState
  | 0 => some b
  | k + 1 =>
    match b.run jitter with
    | none => none
    | some b' => b'.runN jitter k

theorem backoffDelayGen_le (mi ma a : ℕ) (j : ℚ) (hj0 : 0 ≤ j) (hj1 : j < 1)
    (hmm : mi < ma) : backoffDelayGen mi ma a j ≤ ma - 1 := by
  have hma : (1 : ℕ) ≤ ma := Nat.one_le_iff_ne_zero.mpr (by omega)
  have hv : (min (2 ^ a - 1) ma : ℕ) ≤ ma := Nat.min_le_right _ _
  have hlt : ((min (2 ^ a - 1) ma : ℕ) : ℚ) * j < (ma : ℚ) := by
    rcases Nat.eq_zero_or_pos (min (2 ^ a - 1) ma) with h0 | hpos
    · rw [h0]
      push_cast
      simpa using (by exact_mod_cast hma : (0 : ℚ) < (ma : ℚ))
    · have hvq : (0 : ℚ) < ((min (2 ^ a - 1) ma : ℕ) : ℚ) := by exact_mod_cast hpos
      calc ((min (2 ^ a - 1) ma : ℕ) : ℚ) * j
          < ((min (2 ^ a - 1) ma : ℕ) : ℚ) * 1 := by
            exact mul_lt_mul_of_pos_left hj1 hvq
        _ = ((min (2 ^ a - 1) ma : ℕ) : ℚ) := mul_one _
        _ ≤ (ma : ℚ) := by exact_mod_cast hv
  have hfloor : ⌊((min (2 ^ a - 1) ma : ℕ) : ℚ) * j⌋ < (ma : ℤ) := by
    rw [Int.floor_lt]
    exact_mod_cast hlt
  simp only [backoffDelayGen]
  omega

theorem backoffDelayGen_lower (mi ma a : ℕ) (j : ℚ) :
    mi ≤ backoffDelayGen mi ma a j := by
  unfold backoffDelayGen
  exact Nat.le_max_right _ _

/-- C3: For every attempt number and every uniform jitter draw in
[0,1), with `min_interval = 3` and `max_interval = 5`, the delay
computed by `ExponentialBackoff.run` equals
`max(min_interval, int(min(2^attempt - 1, max_interval) * jitter))` —
jitter multiplication and truncation before the floor at
`min_interval` — and for attempt 1 and every other attempt the delay
lies in `[3, 5]` inclusive. -/
theorem backoff_delay_formula_and_range (a : ℕ) (j : ℚ) (hj0 : 0 ≤ j) (hj1 : j < 1) :
    backoffDelay a j = specBackoffDelay a j ∧
    3 ≤ backoffDelay a j ∧ backoffDelay a j ≤ 5 := by
  have h := backoffDelayGen_le 3 5 a j hj0 hj1 (by norm_num)
  have h3 := backoffDelayGen_lower 3 5 a j
  unfold backoffDelay min_interval max_interval
  refine ⟨?_, by omega, by omega⟩
  simp only [backoffDelayGen, specBackoffDelay, min_interval, max_interval]
  omega

/-- Witness for `backoff_delay_formula_and_range` at attempt 1,
jitter 1/2. -/
theorem backoff_delay_formula_and_range_witness :
    (0 : ℚ) ≤ 1 / 2 ∧ (1 / 2 : ℚ) < 1 ∧
    (backoffDelay 1 (1 / 2) = specBackoffDelay 1 (1 / 2) ∧
     3 ≤ backoffDelay 1 (1 / 2) ∧ backoffDelay 1 (1 / 2) ≤ 5) :=
  ⟨by norm_num, by norm_num,
    backoff_delay_formula_and_range 1 (1 / 2) (by norm_num) (by norm_num)⟩

/-- C10: Whenever `min_interval < max_interval`, the computed delay is
at most `max_interval - 1`, hence never equals `max_interval`: the
uniform factor in [0,1) is applied and the product truncated before
the comparison with the bounds.  With the defaults (3 and 5) every
delay lies in `[3, 4]`. -/
theorem backoff_delay_never_max (mi ma a : ℕ) (j : ℚ)
    (hj0 : 0 ≤ j) (hj1 : j < 1) (hmm : mi < ma) :
    backoffDelayGen mi ma a j ≤ ma - 1 ∧ backoffDelayGen mi ma a j ≠ ma ∧
    (3 ≤ backoffDelayGen 3 5 a j ∧ backoffDelayGen 3 5 a j ≤ 4) := by
  have h := backoffDelayGen_le mi ma a j hj0 hj1 hmm
  have h5 := backoffDelayGen_le 3 5 a j hj0 hj1 (by norm_num)
  have h3 := backoffDelayGen_lower 3 5 a j
  exact ⟨h, by omega, h3, by omega⟩

/-- Witness for `backoff_delay_never_max` with the default bounds at
attempt 3, jitter 9/10. -/
theorem backoff_delay_never_max_witness :
    (0 : ℚ) ≤ 9 / 10 ∧ (9 / 10 : ℚ) < 1 ∧ 3 < 5 ∧
    (backoffDelayGen 3 5 3 (9 / 10) ≤ 5 - 1 ∧ backoffDelayGen 3 5 3 (9 / 10) ≠ 5 ∧
     (3 ≤ backoffDelayGen 3 5 3 (9 / 10) ∧ backoffDelayGen 3 5 3 (9 / 10) ≤ 4)) :=
  ⟨by norm_num, by norm_num, by norm_num,
    backoff_delay_never_max 3 5 3 (9 / 10) (by norm_num) (by norm_num) (by norm_num)⟩

/-- C1 counterexample: the claim says the first five invocations of
`run` return without raising and the sixth raises; in fact the fourth
still succeeds and the fifth already raises, because the shared
`attempt_count` iterator is advanced twice on the first (scheduling)
invocation — once by the exhaustion guard and once by the interval
computation. -/
theorem backoff_sixth_call_counterexample :
    freshBackoff.runN 0 4 ≠ none ∧ freshBackoff.runN 0 5 = none := by
  constructor <;> decide

/-- C1 amended: with no intervening successful reconnect and no fired
scheduler check, the first invocation of `run` advances the attempt
counter twice (guard draw 1, interval draw 2) and schedules a check;
each of the next three invocations advances it once and returns early
because a check is still scheduled; the fifth invocation draws 6,
which exceeds the ceiling 5, and raises `ircBotException`. -/
theorem backoff_raises_on_fifth (j : ℚ) :
    freshBackoff.runN j 1 =
      some { counter := 3, check_scheduled := true, lastDelay := backoffDelay 2 j } ∧
    freshBackoff.runN j 2 =
      some { counter := 4, check_scheduled := true, lastDelay := backoffDelay 2 j } ∧
    freshBackoff.runN j 3 =
      some { counter := 5, check_scheduled := true, lastDelay := backoffDelay 2 j } ∧
    freshBackoff.runN j 4 =
      some { counter := 6, check_scheduled := true, lastDelay := backoffDelay 2 j } ∧
    freshBackoff.runN j 5 = none := by
  refine ⟨?_, ?_, ?_, ?_, ?_⟩ <;>
    simp [ExponentialBackoffState.runN, ExponentialBackoffState.run, freshBackoff]

/-! ## Channel membership tracker (irc_bot.py lines 68-233)

The tracker state is `self.channels`, a dictionary from channel name
to `Channel`, modelled as an association list (insertion order kept,
keys unique in every reachable state).  Python `KeyError` on `d[k]` /
`del d[k]` is modelled by `Option`. -/

abbrev Nick := String

abbrev ChanName := String

/-- Modelled from the spec: the `Channel` objects stored by the
tracker come from the external `irc.bot` library (imported at
`irc_bot.py` line 17), whose source is not part of this repository;
the structure follows the spec's data model: "set of member nicknames
(unique); mapping from nickname to set of role-flags (e.g. operator,
voice); channel-level mode flags with optional arguments".  A role
entry `(nick, flag)` records that `nick` holds role `flag`. -/
structure Channel where
  members : List Nick
  roles : List (Nick × String)
  modes : List (String × String)
deriving DecidableEq, Repr

/-- A freshly created `Channel()` (empty membership). -/
def Channel.empty : Channel := { members := [], roles := [], modes := [] }

/-- Modelled from the spec: membership test `has_user`. -/
def Channel.has_user (c : Channel) (nick : Nick) : Bool :=
  c.members.contains nick

/-- Modelled from the spec: `add_user` adds a nickname to the member
set (the member set is a set: adding a present member is a no-op). -/
def Channel.add_user (c : Channel) (nick : Nick) : Channel :=
  if nick ∈ c.members then c else { c with members := nick :: c.members }

/-- Modelled from the spec: `remove_user` removes the nickname from
the member set and drops its role-flags. -/
def Channel.remove_user (c : Channel) (nick : Nick) : Channel :=
  { c with
    members := c.members.filter (fun m => m ≠ nick),
    roles := c.roles.filter (fun r => r.1 ≠ nick) }

/-- Modelled from the spec: `change_nick` renames `old` to `nw`,
preserving the role-flags `old` held; as in a dictionary, the member
set stays duplicate-free even if `nw` was already present. -/
def Channel.change_nick (c : Channel) (old nw : Nick) : Channel :=
  let ms := c.members.filter (fun m => m ≠ old)
  { c with
    members := if nw ∈ ms then ms else ms ++ [nw],
    roles := c.roles.map (fun r => if r.1 = old then (nw, r.2) else r) }

/-- The per-nick role modes of the spec's role-flag vocabulary
(operator, voice). -/
def nickModeFlags : List String := ["o", "v"]

/-- Modelled from the spec: `set_mode` applies a per-nick role-flag
for role modes, and records a channel-level mode otherwise. -/
def Channel.set_mode (c : Channel) (mode arg : String) : Channel :=
  if mode ∈ nickModeFlags then
    if (arg, mode) ∈ c.roles then c else { c with roles := (arg, mode) :: c.roles }
  else
    { c with modes := (mode, arg) :: c.modes.filter (fun m => m.1 ≠ mode) }

/-- Modelled from the spec: `clear_mode` drops a per-nick role-flag
for role modes, and clears a channel-level mode otherwise. -/
def Channel.clear_mode (c : Channel) (mode arg : String) : Channel :=
  if mode ∈ nickModeFlags then
    { c with roles := c.roles.filter (fun r => ¬(r.1 = arg ∧ r.2 = mode)) }
  else
    { c with modes := c.modes.filter (fun m => m.1 ≠ mode) }

/-- The tracker's channel map `self.channels`. -/
abbrev ChannelMap := List (ChanName × Channel)

/-- Dictionary lookup `self.channels[ch]`; `none` models `KeyError`. -/
def getChannel (t : ChannelMap) (name : ChanName) : Option Channel :=
  (t.find? (fun p => p.1 = name)).map (fun p => p.2)

/-- Dictionary assignment `self.channels[ch] = c`: replace the entry
in place when the key exists, append otherwise. -/
def setChannel (t : ChannelMap) (name : ChanName) (c : Channel) : ChannelMap :=
  if t.any (fun p => p.1 = name) then
    t.map (fun p => if p.1 = name then (name, c) else p)
  else
    t ++ [(name, c)]

/-- Dictionary deletion `del self.channels[ch]`; `none` models the
`KeyError` raised when the key is absent. -/
def delChannel (t : ChannelMap) (name : ChanName) : Option ChannelMap :=
  if t.any (fun p => p.1 = name) then
    some (t.filter (fun p => p.1 ≠ name))
  else none

/-- `_on_join` (lines 157-162): when the joining nick is the local
identity, a fresh `Channel` is stored first; then
`self.channels[ch].add_user(nick)` runs, which raises `KeyError`
(modelled `none`) when the channel is untracked. -/
def onJoin (localNick : Nick) (t : ChannelMap) (ch : ChanName) (nick : Nick) :
    Option ChannelMap :=
  let t1 := if nick = localNick then setChannel t ch Channel.empty else t
  match getChannel t1 ch with
  | none => none
  | some c => some (setChannel t1 ch (c.add_user nick))

/-- `_on_part` (lines 220-227): the local identity's part deletes the
channel entry; another nick's part removes it from that channel. -/
def onPart (localNick : Nick) (t : ChannelMap) (ch : ChanName) (nick : Nick) :
    Option ChannelMap :=
  if nick = localNick then delChannel t ch
  else
    match getChannel t ch with
    | none => none
    | some c => some (setChannel t ch (c.remove_user nick))

/-- `_on_kick` (lines 164-171): same effect as `_on_part`, keyed off
the kicked nick carried in `event.arguments[0]`. -/
def onKick (localNick : Nick) (t : ChannelMap) (ch : ChanName) (nick : Nick) :
    Option ChannelMap :=
  if nick = localNick then delChannel t ch
  else
    match getChannel t ch with
    | none => none
    | some c => some (setChannel t ch (c.remove_user nick))

/-- `_on_quit` (lines 229-233): remove the quitting nick from every
channel where it is a member. -/
def onQuit (t : ChannelMap) (nick : Nick) : ChannelMap :=
  t.map (fun p => if p.2.has_user nick then (p.1, p.2.remove_user nick) else p)

/-- `_on_nick` (lines 213-218): rename `old` to `nw` in every channel
where `old` is present. -/
def onNick (t : ChannelMap) (old nw : Nick) : ChannelMap :=
  t.map (fun p => if p.2.has_user old then (p.1, p.2.change_nick old nw) else p)

/-- `_on_mode` (lines 173-183) for a single parsed channel mode:
`self.channels[t]` raises `KeyError` when the channel is untracked;
`+` dispatches to `set_mode`, `-` to `clear_mode`. -/
def onMode (t : ChannelMap) (ch : ChanName) (plus : Bool) (mode arg : String) :
    Option ChannelMap :=
  match getChannel t ch with
  | none => none
  | some c =>
    some (setChannel t ch (if plus then c.set_mode mode arg else c.clear_mode mode arg))

/-- `_on_disconnect` resets `self.channels = IRCDict()` (line 154). -/
def onDisconnectChannels : ChannelMap := []

/-- The membership events the tracker handlers react to. -/
inductive IrcEvent where
  | join (channel : ChanName) (nick : Nick)
  | part (channel : ChanName) (nick : Nick)
  | kick (channel : ChanName) (nick : Nick)
  | quit (nick : Nick)
  | nickChange (old nw : Nick)
  | modeChange (channel : ChanName) (plus : Bool) (mode arg : String)
deriving DecidableEq, Repr

/-- Whether an event is a mode-change (the one event kind outside the
join/part/kick/quit/nick-change vocabulary of the invariant claim). -/
def IrcEvent.isModeChange : IrcEvent → Bool
  | .modeChange _ _ _ _ => true
  | _ => false

/-- Dispatch of one event to its `SingleServerIRCBot` handler. -/
def stepEvent (localNick : Nick) (t : ChannelMap) : IrcEvent → Option ChannelMap
  | .join ch n => onJoin localNick t ch n
  | .part ch n => onPart localNick t ch n
  | .kick ch n => onKick localNick t ch n
  | .quit n => some (onQuit t n)
  | .nickChange o n => some (onNick t o n)
  | .modeChange ch s m a => onMode t ch s m a

/-- Apply a sequence of events; `none` as soon as one handler raises. -/
def applyEvents (localNick : Nick) (t : ChannelMap) : List IrcEvent → Option ChannelMap
  | [] => some t
  | e :: es =>
    match stepEvent localNick t e with
    | none => none
    | some t' => applyEvents localNick t' es

/-- Per-channel invariant: no duplicate nickname in the member set,
and every role-flag entry names a present member. -/
def ChannelInv (c : Channel) : Prop :=
  c.members.Nodup ∧ ∀ r ∈ c.roles, r.1 ∈ c.members

/-- Tracker invariant: every tracked channel satisfies `ChannelInv`. -/
def TrackerInv (t : ChannelMap) : Prop :=
  ∀ p ∈ t, ChannelInv p.2

instance (c : Channel) : Decidable (ChannelInv c) := by
  unfold ChannelInv; infer_instance

instance (t : ChannelMap) : Decidable (TrackerInv t) := by
  unfold TrackerInv; infer_instance


theorem getChannel_cons (p : ChanName × Channel) (t : ChannelMap) (ch : ChanName) :
    getChannel (p :: t) ch = if p.1 = ch then some p.2 else getChannel t ch := by
  by_cases h : p.1 = ch <;> simp [getChannel, List.find?_cons, h]

theorem any_key_eq_isSome_getChannel (t : ChannelMap) (name : ChanName) :
    (t.any fun p => p.1 = name) = (getChannel t name).isSome := by
  induction t with
  | nil => simp [getChannel]
  | cons p rest ih =>
    by_cases h : p.1 = name <;>
      simp [getChannel_cons, h, List.any_cons, ih]

theorem getChannel_mapSet_self (t : ChannelMap) (name : ChanName) (c : Channel) :
    getChannel (t.map fun p => if p.1 = name then (name, c) else p) name =
      ((getChannel t name).map fun _ => c) := by
  induction t with
  | nil => simp [getChannel]
  | cons p rest ih =>
    by_cases hp : p.1 = name
    · simp [List.map_cons, hp, getChannel_cons]
    · simp [List.map_cons, hp, getChannel_cons, ih]

theorem getChannel_mapSet_other (t : ChannelMap) (name ch : ChanName) (c : Channel)
    (hc : ch ≠ name) :
    getChannel (t.map fun p => if p.1 = name then (name, c) else p) ch =
      getChannel t ch := by
  induction t with
  | nil => simp [getChannel]
  | cons p rest ih =>
    by_cases hp : p.1 = name
    · have h1 : ¬(name = ch) := fun hn => hc hn.symm
      have h2 : ¬(p.1 = ch) := by rw [hp]; exact h1
      simp [List.map_cons, hp, getChannel_cons, h1, h2, ih]
    · simp only [List.map_cons, if_neg hp]
      rw [getChannel_cons, getChannel_cons, ih]

theorem getChannel_append_single (t : ChannelMap) (name ch : ChanName) (c : Channel) :
    getChannel (t ++ [(name, c)]) ch =
      ((getChannel t ch).orElse fun _ => if name = ch then some c else none) := by
  induction t with
  | nil => by_cases h : name = ch <;> simp [getChannel, List.find?_cons, h]
  | cons p rest ih =>
    by_cases hpc : p.1 = ch
    · simp [getChannel_cons, hpc, Option.orElse]
    · simp only [List.cons_append]
      rw [getChannel_cons, if_neg hpc, getChannel_cons, if_neg hpc, ih]

theorem getChannel_setChannel (t : ChannelMap) (name ch : ChanName) (c : Channel) :
    getChannel (setChannel t name c) ch =
      if ch = name then some c else getChannel t ch := by
  unfold setChannel
  by_cases h : t.any (fun p => p.1 = name) = true
  · rw [if_pos h]
    by_cases hc : ch = name
    · subst hc
      rw [getChannel_mapSet_self, if_pos rfl,
        any_key_eq_isSome_getChannel] at *
      obtain ⟨c', hc'⟩ := Option.isSome_iff_exists.mp h
      simp [hc']
    · rw [getChannel_mapSet_other t name ch c hc, if_neg hc]
  · rw [if_neg h, getChannel_append_single]
    rw [any_key_eq_isSome_getChannel] at h
    by_cases hc : ch = name
    · subst hc
      have hnone : getChannel t ch = none := by
        cases hg : getChannel t ch
        · rfl
        · exact absurd (by simp [hg]) h
      simp [hnone, Option.orElse]
    · cases hg : getChannel t ch
      · have h1 : ¬(name = ch) := fun hn => hc hn.symm
        simp [hg, Option.orElse, h1, hc]
      · simp [hg, Option.orElse, hc]

theorem getChannel_filter_ne (t : ChannelMap) (name ch : ChanName) :
    getChannel (t.filter fun p => p.1 ≠ name) ch =
      if ch = name then none else getChannel t ch := by
  induction t with
  | nil => by_cases h : ch = name <;> simp [getChannel, h]
  | cons p rest ih =>
    by_cases hp : p.1 = name
    · rw [List.filter_cons_of_neg (by simp [hp]), ih, getChannel_cons]
      by_cases hc : ch = name
      · simp [hc]
      · have h2 : ¬(p.1 = ch) := by rw [hp]; exact fun hn => hc hn.symm
        rw [if_neg h2, if_neg hc]
    · rw [List.filter_cons_of_pos (by simp [hp]), getChannel_cons, getChannel_cons]
      by_cases hpc : p.1 = ch
      · have hc : ¬(ch = name) := by rw [← hpc]; exact fun hn => hp hn
        rw [if_pos hpc, if_pos hpc, if_neg hc]
      · rw [if_neg hpc, if_neg hpc, ih]

theorem delChannel_getChannel (t : ChannelMap) (name : ChanName) (t' : ChannelMap)
    (h : delChannel t name = some t') :
    (∀ ch, ch ≠ name → getChannel t' ch = getChannel t ch) ∧ getChannel t' name = none := by
  unfold delChannel at h
  by_cases ha : t.any (fun p => p.1 = name) = true
  · rw [if_pos ha] at h
    cases h
    constructor
    · intro ch hch
      rw [getChannel_filter_ne, if_neg hch]
    · rw [getChannel_filter_ne, if_pos rfl]
  · rw [if_neg ha] at h
    cases h

theorem channelInv_empty : ChannelInv Channel.empty := by
  constructor <;> simp [Channel.empty]

theorem channelInv_add_user (c : Channel) (n : Nick) (h : ChannelInv c) :
    ChannelInv (c.add_user n) := by
  unfold Channel.add_user
  by_cases hn : n ∈ c.members
  · rw [if_pos hn]; exact h
  · rw [if_neg hn]
    refine ⟨List.Nodup.cons hn h.1, ?_⟩
    intro r hr
    exact List.mem_cons_of_mem n (h.2 r hr)

theorem channelInv_remove_user (c : Channel) (n : Nick) (h : ChannelInv c) :
    ChannelInv (c.remove_user n) := by
  unfold Channel.remove_user
  refine ⟨List.Nodup.filter _ h.1, ?_⟩
  intro r hr
  rw [List.mem_filter] at hr ⊢
  exact ⟨h.2 r hr.1, hr.2⟩

theorem channelInv_change_nick (c : Channel) (o nw : Nick) (h : ChannelInv c) :
    ChannelInv (c.change_nick o nw) := by
  unfold Channel.change_nick
  simp only []
  have hms : (c.members.filter fun m => m ≠ o).Nodup := List.Nodup.filter _ h.1
  constructor
  · by_cases hnw : nw ∈ c.members.filter fun m => m ≠ o
    · rw [if_pos hnw]; exact hms
    · rw [if_neg hnw]
      rw [List.nodup_append]
      refine ⟨hms, List.nodup_singleton _, ?_⟩
      intro a ha hb
      rw [List.mem_singleton] at hb
      subst hb
      exact hnw ha
  · intro r hr
    rw [List.mem_map] at hr
    obtain ⟨r0, hr0, hfr⟩ := hr
    by_cases ho : r0.1 = o
    · rw [if_pos ho] at hfr
      subst hfr
      by_cases hnw : nw ∈ c.members.filter fun m => m ≠ o
      · rw [if_pos hnw]; exact hnw
      · rw [if_neg hnw]; simp
    · rw [if_neg ho] at hfr
      subst hfr
      have hmem : r0.1 ∈ c.members.filter fun m => m ≠ o := by
        rw [List.mem_filter]
        exact ⟨h.2 r0 hr0, by simpa using ho⟩
      by_cases hnw : nw ∈ c.members.filter fun m => m ≠ o
      · rw [if_pos hnw]; exact hmem
      · rw [if_neg hnw]; exact List.mem_append_left _ hmem

theorem trackerInv_getChannel (t : ChannelMap) (name : ChanName) (c : Channel)
    (h : TrackerInv t) (hg : getChannel t name = some c) : ChannelInv c := by
  unfold getChannel at hg
  cases hf : t.find? (fun p => p.1 = name) with
  | none => rw [hf] at hg; cases hg
  | some p =>
    rw [hf] at hg
    cases hg
    exact h p (List.mem_of_find?_eq_some hf)

theorem trackerInv_setChannel (t : ChannelMap) (name : ChanName) (c : Channel)
    (h : TrackerInv t) (hc : ChannelInv c) : TrackerInv (setChannel t name c) := by
  unfold setChannel
  by_cases ha : t.any (fun p => p.1 = name) = true
  · rw [if_pos ha]
    intro p hp
    rw [List.mem_map] at hp
    obtain ⟨p0, hp0, hfp⟩ := hp
    by_cases hk : p0.1 = name
    · rw [if_pos hk] at hfp; subst hfp; exact hc
    · rw [if_neg hk] at hfp; subst hfp; exact h p0 hp0
  · rw [if_neg ha]
    intro p hp
    rcases List.mem_append.mp hp with h1 | h2
    · exact h p h1
    · rw [List.mem_singleton] at h2
      subst h2
      exact hc

theorem trackerInv_onQuit (t : ChannelMap) (n : Nick) (h : TrackerInv t) :
    TrackerInv (onQuit t n) := by
  unfold onQuit
  intro p hp
  rw [List.mem_map] at hp
  obtain ⟨p0, hp0, hfp⟩ := hp
  by_cases hu : p0.2.has_user n = true
  · rw [if_pos hu] at hfp; subst hfp
    exact channelInv_remove_user _ _ (h p0 hp0)
  · rw [if_neg hu] at hfp; subst hfp; exact h p0 hp0

theorem trackerInv_onNick (t : ChannelMap) (o nw : Nick) (h : TrackerInv t) :
    TrackerInv (onNick t o nw) := by
  unfold onNick
  intro p hp
  rw [List.mem_map] at hp
  obtain ⟨p0, hp0, hfp⟩ := hp
  by_cases hu : p0.2.has_user o = true
  · rw [if_pos hu] at hfp; subst hfp
    exact channelInv_change_nick _ _ _ (h p0 hp0)
  · rw [if_neg hu] at hfp; subst hfp; exact h p0 hp0

theorem trackerInv_delChannel (t : ChannelMap) (name : ChanName) (t' : ChannelMap)
    (h : TrackerInv t) (hd : delChannel t name = some t') : TrackerInv t' := by
  unfold delChannel at hd
  by_cases ha : t.any (fun p => p.1 = name) = true
  · rw [if_pos ha] at hd
    cases hd
    intro p hp
    exact h p (List.mem_of_mem_filter hp)
  · rw [if_neg ha] at hd
    cases hd

theorem trackerInv_onJoin (l : Nick) (t : ChannelMap) (ch : ChanName) (n : Nick)
    (t' : ChannelMap) (h : TrackerInv t) (hj : onJoin l t ch n = some t') :
    TrackerInv t' := by
  simp only [onJoin] at hj
  have h1 : TrackerInv (if n = l then setChannel t ch Channel.empty else t) := by
    by_cases hn : n = l
    · rw [if_pos hn]; exact trackerInv_setChannel t ch Channel.empty h channelInv_empty
    · rw [if_neg hn]; exact h
  revert hj
  generalize ht1 : (if n = l then setChannel t ch Channel.empty else t) = t1 at h1 ⊢
  intro hj
  cases hg : getChannel t1 ch with
  | none => rw [hg] at hj; cases hj
  | some c =>
    rw [hg] at hj
    cases hj
    exact trackerInv_setChannel t1 ch (c.add_user n) h1
      (channelInv_add_user c n (trackerInv_getChannel t1 ch c h1 hg))

theorem trackerInv_onPart (l : Nick) (t : ChannelMap) (ch : ChanName) (n : Nick)
    (t' : ChannelMap) (h : TrackerInv t) (hp : onPart l t ch n = some t') :
    TrackerInv t' := by
  unfold onPart at hp
  by_cases hn : n = l
  · rw [if_pos hn] at hp
    exact trackerInv_delChannel t ch t' h hp
  · rw [if_neg hn] at hp
    cases hg : getChannel t ch with
    | none => rw [hg] at hp; cases hp
    | some c =>
      rw [hg] at hp
      cases hp
      exact trackerInv_setChannel t ch (c.remove_user n) h
        (channelInv_remove_user c n (trackerInv_getChannel t ch c h hg))

theorem trackerInv_onKick (l : Nick) (t : ChannelMap) (ch : ChanName) (n : Nick)
    (t' : ChannelMap) (h : TrackerInv t) (hp : onKick l t ch n = some t') :
    TrackerInv t' := by
  unfold onKick at hp
  by_cases hn : n = l
  · rw [if_pos hn] at hp
    exact trackerInv_delChannel t ch t' h hp
  · rw [if_neg hn] at hp
    cases hg : getChannel t ch with
    | none => rw [hg] at hp; cases hp
    | some c =>
      rw [hg] at hp
      cases hp
      exact trackerInv_setChannel t ch (c.remove_user n) h
        (channelInv_remove_user c n (trackerInv_getChannel t ch c h hg))

theorem stepEvent_inv (l : Nick) (t : ChannelMap) (e : IrcEvent) (t' : ChannelMap)
    (h : TrackerInv t) (hm : e.isModeChange = false)
    (hs : stepEvent l t e = some t') : TrackerInv t' := by
  cases e with
  | join ch n => exact trackerInv_onJoin l t ch n t' h hs
  | part ch n => exact trackerInv_onPart l t ch n t' h hs
  | kick ch n => exact trackerInv_onKick l t ch n t' h hs
  | quit n =>
    cases hs
    exact trackerInv_onQuit t n h
  | nickChange o nw =>
    cases hs
    exact trackerInv_onNick t o nw h
  | modeChange ch s m a => simp [IrcEvent.isModeChange] at hm

theorem applyEvents_inv (l : Nick) (es : List IrcEvent) :
    ∀ (t t' : ChannelMap), TrackerInv t → (∀ e ∈ es, e.isModeChange = false) →
      applyEvents l t es = some t' → TrackerInv t' := by
  induction es with
  | nil =>
    intro t t' h _ ha
    cases ha
    exact h
  | cons e rest ih =>
    intro t t' h hm ha
    unfold applyEvents at ha
    cases hs : stepEvent l t e with
    | none => rw [hs] at ha; cases ha
    | some t1 =>
      rw [hs] at ha
      exact ih t1 t' (stepEvent_inv l t e t1 h (hm e (List.mem_cons_self e rest)) hs)
        (fun e' he' => hm e' (List.mem_cons_of_mem e he')) ha

/-- C4: for every sequence of join/part/kick/quit/nick-change events
applied to a fresh tracker, every state reached along the way (the
result of any prefix that processes without error) has no duplicate
nickname in any tracked channel's member set, and every role-flag
entry names a nickname present in that channel's member set. -/
theorem tracker_member_role_invariant (localNick : Nick) (es : List IrcEvent)
    (hm : ∀ e ∈ es, e.isModeChange = false)
    (pre rest : List IrcEvent) (hsplit : pre ++ rest = es)
    (t' : ChannelMap) (h : applyEvents localNick [] pre = some t') :
    TrackerInv t' := by
  refine applyEvents_inv localNick pre [] t' ?_ ?_ h
  · intro p hp
    cases hp
  · intro e he
    exact hm e (hsplit ▸ List.mem_append_left rest he)

/-- The event sequence of the witness for the tracker invariant. -/
def demoEvents : List IrcEvent :=
  [.join "#c" "bot", .join "#c" "alice", .join "#d" "bot",
   .nickChange "alice" "carol", .quit "carol", .part "#d" "bot"]

/-- The tracker state after the first four events of `demoEvents`. -/
def demoTracker : ChannelMap :=
  [("#c", { members := ["bot", "carol"], roles := [], modes := [] }),
   ("#d", { members := ["bot"], roles := [], modes := [] })]

/-- Witness for `tracker_member_role_invariant`: a concrete run of
four events reaching a concrete state satisfying the invariant. -/
theorem tracker_member_role_invariant_witness :
    (∀ e ∈ demoEvents, e.isModeChange = false) ∧
    [IrcEvent.join "#c" "bot", .join "#c" "alice", .join "#d" "bot",
      .nickChange "alice" "carol"] ++ [IrcEvent.quit "carol", .part "#d" "bot"] =
      demoEvents ∧
    applyEvents "bot" []
      [IrcEvent.join "#c" "bot", .join "#c" "alice", .join "#d" "bot",
        .nickChange "alice" "carol"] = some demoTracker ∧
    TrackerInv demoTracker :=
  ⟨by decide, by decide, by decide,
    tracker_member_role_invariant "bot" demoEvents (by decide)
      [IrcEvent.join "#c" "bot", .join "#c" "alice", .join "#d" "bot",
        .nickChange "alice" "carol"] [IrcEvent.quit "carol", .part "#d" "bot"]
      (by decide) demoTracker (by decide)⟩

/-! ## Disconnect handling (`_on_disconnect`, irc_bot.py lines 153-155) -/

/-- The `SingleServerIRCBot` state the disconnect handler touches:
the channel map `self.channels` and the reconnect strategy
`self.recon`. -/
structure BotState where
  channels : ChannelMap
  recon : ExponentialBackoffState
deriving DecidableEq, Repr

/-- `_on_disconnect`: first `self.channels = IRCDict()` (line 154),
then `self.recon.run(self)` (line 155).  The returned flag is `true`
when `run` raised `ircBotException`; the channel-map assignment has
already happened by then, so it survives the raise. -/
def onDisconnect (s : BotState) (jitter : ℚ) : BotState × Bool :=
  let s1 : BotState := { s with channels := [] }
  match s1.recon.run jitter with
  | none => (s1, true)
  | some b => ({ s1 with recon := b }, false)

/-- C5: after processing a disconnect event the channel map is empty,
whatever the prior map held, including when the reconnect strategy
invocation raises the exhaustion exception (the reset at line 154
precedes the `run` call at line 155). -/
theorem disconnect_clears_channels (s : BotState) (jitter : ℚ) :
    ((onDisconnect s jitter).1).channels = [] := by
  unfold onDisconnect
  cases h : s.recon.run jitter <;> simp [h]

theorem getChannel_mapVal (t : ChannelMap) (name : ChanName) (g : Channel → Channel)
    (pred : Channel → Bool) :
    getChannel (t.map fun p => if pred p.2 then (p.1, g p.2) else p) name =
      ((getChannel t name).map fun c => if pred c then g c else c) := by
  induction t with
  | nil => simp [getChannel]
  | cons p rest ih =>
    by_cases hp : p.1 = name
    · by_cases hq : pred p.2 <;> simp [getChannel_cons, hp, hq]
    · by_cases hq : pred p.2 <;> simp [getChannel_cons, hp, hq, ih]

theorem remove_user_not_mem (c : Channel) (n : Nick) :
    n ∉ (c.remove_user n).members := by
  unfold Channel.remove_user
  simp [List.mem_filter]

theorem remove_user_roles_ne (c : Channel) (n : Nick) :
    ∀ r ∈ (c.remove_user n).roles, r.1 ≠ n := by
  unfold Channel.remove_user
  intro r hr
  rw [List.mem_filter] at hr
  simpa using hr.2

/-- C6: a part or kick of the local identity removes the channel entry
from the map entirely; a part or kick of another nick on a tracked
channel removes exactly that nick (and its role-flags) from that one
channel and leaves every other channel entry unchanged. -/
theorem part_kick_effect (l : Nick) (t : ChannelMap) (ch : ChanName) (nick : Nick) :
    (nick = l → ∀ t', onPart l t ch nick = some t' → getChannel t' ch = none) ∧
    (nick = l → ∀ t', onKick l t ch nick = some t' → getChannel t' ch = none) ∧
    (nick ≠ l → ∀ c, getChannel t ch = some c →
      onPart l t ch nick = some (setChannel t ch (c.remove_user nick)) ∧
      onKick l t ch nick = some (setChannel t ch (c.remove_user nick)) ∧
      getChannel (setChannel t ch (c.remove_user nick)) ch = some (c.remove_user nick) ∧
      nick ∉ (c.remove_user nick).members ∧
      (∀ r ∈ (c.remove_user nick).roles, r.1 ≠ nick) ∧
      (∀ ch', ch' ≠ ch → getChannel (setChannel t ch (c.remove_user nick)) ch' =
        getChannel t ch')) := by
  refine ⟨?_, ?_, ?_⟩
  · intro hn t' hp
    unfold onPart at hp
    rw [if_pos hn] at hp
    exact (delChannel_getChannel t ch t' hp).2
  · intro hn t' hp
    unfold onKick at hp
    rw [if_pos hn] at hp
    exact (delChannel_getChannel t ch t' hp).2
  · intro hn c hc
    refine ⟨?_, ?_, ?_, remove_user_not_mem c nick, remove_user_roles_ne c nick, ?_⟩
    · unfold onPart
      rw [if_neg hn, hc]
    · unfold onKick
      rw [if_neg hn, hc]
    · rw [getChannel_setChannel, if_pos rfl]
    · intro ch' hch'
      rw [getChannel_setChannel, if_neg hch']

/-- The tracker state used by the C6 and C7 witnesses. -/
def demoTracker2 : ChannelMap :=
  [("#c", { members := ["bot", "alice"], roles := [("alice", "o")], modes := [] }),
   ("#d", { members := ["bot"], roles := [], modes := [] })]

/-- The `#c` entry of `demoTracker2`. -/
def demoChanC : Channel :=
  { members := ["bot", "alice"], roles := [("alice", "o")], modes := [] }

/-- Witness for `part_kick_effect`: `alice` (not the local identity
`bot`) parts `#c` in `demoTracker2`; also the local-identity part of
`#d` removes that entry. -/
theorem part_kick_effect_witness :
    ("alice" : Nick) ≠ "bot" ∧
    getChannel demoTracker2 "#c" = some demoChanC ∧
    onPart "bot" demoTracker2 "#c" "alice" =
      some (setChannel demoTracker2 "#c" (demoChanC.remove_user "alice")) ∧
    onKick "bot" demoTracker2 "#c" "alice" =
      some (setChannel demoTracker2 "#c" (demoChanC.remove_user "alice")) ∧
    getChannel (setChannel demoTracker2 "#c" (demoChanC.remove_user "alice")) "#c" =
      some (demoChanC.remove_user "alice") ∧
    "alice" ∉ (demoChanC.remove_user "alice").members ∧
    getChannel (setChannel demoTracker2 "#c" (demoChanC.remove_user "alice")) "#d" =
      getChannel demoTracker2 "#d" := by
  have h := (part_kick_effect "bot" demoTracker2 "#c" "alice").2.2 (by decide)
    demoChanC (by decide)
  exact ⟨by decide, by decide, h.1, h.2.1, h.2.2.1, h.2.2.2.1,
    h.2.2.2.2.2 "#d" (by decide)⟩

theorem change_nick_mem_new (c : Channel) (o nw : Nick) :
    nw ∈ (c.change_nick o nw).members := by
  unfold Channel.change_nick
  simp only []
  by_cases hnw : nw ∈ c.members.filter fun m => m ≠ o
  · rw [if_pos hnw]; exact hnw
  · rw [if_neg hnw]
    exact List.mem_append_right _ (List.mem_singleton.mpr rfl)

theorem change_nick_not_mem_old (c : Channel) (o nw : Nick) (h : o ≠ nw) :
    o ∉ (c.change_nick o nw).members := by
  unfold Channel.change_nick
  simp only []
  have hms : o ∉ c.members.filter fun m => m ≠ o := by
    simp [List.mem_filter]
  by_cases hnw : nw ∈ c.members.filter fun m => m ≠ o
  · rw [if_pos hnw]; exact hms
  · rw [if_neg hnw]
    intro hmem
    rcases List.mem_append.mp hmem with h1 | h2
    · exact hms h1
    · exact h (List.mem_singleton.mp h2)

theorem change_nick_roles_transfer (c : Channel) (o nw : Nick) (f : String)
    (h : (o, f) ∈ c.roles) : (nw, f) ∈ (c.change_nick o nw).roles := by
  unfold Channel.change_nick
  simp only []
  exact List.mem_map.mpr ⟨(o, f), h, by simp⟩

/-- C7: a nick-change renames `o` to `nw` in every tracked channel
where `o` is present — `nw` becomes a member, `o` is no longer one,
and every role-flag `o` held transfers to `nw` — while every tracked
channel where `o` is absent is completely unchanged. -/
theorem nick_change_effect (t : ChannelMap) (o nw : Nick) (name : ChanName) (c : Channel)
    (hg : getChannel t name = some c) :
    (c.has_user o = false → getChannel (onNick t o nw) name = some c) ∧
    (c.has_user o = true →
      getChannel (onNick t o nw) name = some (c.change_nick o nw) ∧
      nw ∈ (c.change_nick o nw).members ∧
      (o ≠ nw → o ∉ (c.change_nick o nw).members) ∧
      (∀ f, (o, f) ∈ c.roles → (nw, f) ∈ (c.change_nick o nw).roles)) := by
  have hmap := getChannel_mapVal t name (fun cc => cc.change_nick o nw)
    (fun cc => cc.has_user o)
  constructor
  · intro hu
    unfold onNick
    rw [hmap, hg]
    simp [hu]
  · intro hu
    refine ⟨?_, change_nick_mem_new c o nw, change_nick_not_mem_old c o nw,
      change_nick_roles_transfer c o nw⟩
    unfold onNick
    rw [hmap, hg]
    simp [hu]

/-- Witness for `nick_change_effect`: in `demoTracker2`, renaming
`alice` (an operator in `#c`, absent from `#d`) to `carol` renames her
in `#c` with the operator flag preserved and leaves `#d` unchanged. -/
theorem nick_change_effect_witness :
    getChannel demoTracker2 "#c" = some demoChanC ∧
    demoChanC.has_user "alice" = true ∧
    getChannel (onNick demoTracker2 "alice" "carol") "#c" =
      some (demoChanC.change_nick "alice" "carol") ∧
    ("carol" : Nick) ∈ (demoChanC.change_nick "alice" "carol").members ∧
    ("alice" : Nick) ∉ (demoChanC.change_nick "alice" "carol").members ∧
    ("carol", "o") ∈ (demoChanC.change_nick "alice" "carol").roles ∧
    getChannel (onNick demoTracker2 "alice" "carol") "#d" =
      getChannel demoTracker2 "#d" := by
  have h := (nick_change_effect demoTracker2 "alice" "carol" "#c" demoChanC (by decide)).2
    (by decide)
  have habs := (nick_change_effect demoTracker2 "alice" "carol" "#d"
    { members := ["bot"], roles := [], modes := [] } (by decide)).1 (by decide)
  refine ⟨by decide, by decide, h.1, h.2.1, h.2.2.1 (by decide),
    h.2.2.2 "o" (by decide), ?_⟩
  rw [habs]
  decide

/-- C9 counterexample: the claim says a join event never references a
channel absent from the map and the handler's missing-key branch is
unreachable; but on a fresh (empty) tracker, a join of `alice` (not
the local identity `bot`) to the untracked channel `#c` reaches
`self.channels[ch].add_user(nick)` with `ch` absent and raises
`KeyError` (modelled as `none`). -/
theorem join_missing_key_counterexample :
    onJoin "bot" [] "#c" "alice" = none := by decide

/-- C9 amended: a join event creates the channel entry only when the
joining nick is the local identity; in that case, or when the channel
is already tracked, processing succeeds and the nick is a member of
the channel afterwards; when the nick is not the local identity and
the channel is untracked, the handler hits its missing-key error
branch. -/
theorem join_amended (l : Nick) (t : ChannelMap) (ch : ChanName) (n : Nick) :
    (n = l →
      onJoin l t ch n =
        some (setChannel (setChannel t ch Channel.empty) ch (Channel.empty.add_user n)) ∧
      getChannel (setChannel (setChannel t ch Channel.empty) ch (Channel.empty.add_user n))
        ch = some (Channel.empty.add_user n) ∧
      n ∈ (Channel.empty.add_user n).members) ∧
    (n ≠ l → ∀ c, getChannel t ch = some c →
      onJoin l t ch n = some (setChannel t ch (c.add_user n)) ∧
      getChannel (setChannel t ch (c.add_user n)) ch = some (c.add_user n) ∧
      n ∈ (c.add_user n).members) ∧
    (n ≠ l → getChannel t ch = none → onJoin l t ch n = none) := by
  have hmem : ∀ c : Channel, n ∈ (c.add_user n).members := by
    intro c
    unfold Channel.add_user
    by_cases hn2 : n ∈ c.members
    · rw [if_pos hn2]; exact hn2
    · rw [if_neg hn2]; exact List.mem_cons_self n c.members
  refine ⟨?_, ?_, ?_⟩
  · intro hn
    have hg : getChannel (setChannel t ch Channel.empty) ch = some Channel.empty := by
      rw [getChannel_setChannel, if_pos rfl]
    refine ⟨?_, ?_, hmem Channel.empty⟩
    · simp only [onJoin, if_pos hn]
      rw [hg]
    · rw [getChannel_setChannel, if_pos rfl]
  · intro hn c hc
    refine ⟨?_, ?_, hmem c⟩
    · simp only [onJoin, if_neg hn]
      rw [hc]
    · rw [getChannel_setChannel, if_pos rfl]
  · intro hn hc
    simp only [onJoin, if_neg hn]
    rw [hc]

/-- Witness for `join_amended`: the local identity `bot` joins the
untracked `#x`, and `alice` joins the tracked `#c` of `demoTracker2`;
`alice` joining the untracked `#x` raises. -/
theorem join_amended_witness :
    onJoin "bot" ([] : ChannelMap) "#x" "bot" =
      some (setChannel (setChannel [] "#x" Channel.empty) "#x"
        (Channel.empty.add_user "bot")) ∧
    ("bot" : Nick) ∈ (Channel.empty.add_user "bot").members ∧
    ("alice" : Nick) ≠ "bot" ∧
    getChannel demoTracker2 "#c" = some demoChanC ∧
    onJoin "bot" demoTracker2 "#c" "carol" =
      some (setChannel demoTracker2 "#c" (demoChanC.add_user "carol")) ∧
    ("carol" : Nick) ∈ (demoChanC.add_user "carol").members ∧
    onJoin "bot" demoTracker2 "#x" "alice" = none := by
  have h1 := (join_amended "bot" ([] : ChannelMap) "#x" "bot").1 rfl
  have h2 := (join_amended "bot" demoTracker2 "#c" "carol").2.1 (by decide)
    demoChanC (by decide)
  have h3 := (join_amended "bot" demoTracker2 "#x" "alice").2.2 (by decide) (by decide)
  exact ⟨h1.1, h1.2.2, by decide, by decide, h2.1, h2.2.2, h3⟩

/-! ## Message relay matching (irc_bot.py lines 323-334,
irc_bridge.py lines 43-68) -/

/-- One `{irc_channel, resource_ship, urbit_channel}` pairing from the
instance configuration (`self.instance["channels"]`). -/
structure ChannelPairing where
  irc_channel : String
  resource_ship : String
  urbit_channel : String
deriving DecidableEq, Repr

/-- The characters before the first `'!'` — Python
`source.split("!")[0]`, extracting the nick from an IRC prefix. -/
def charsBeforeBang : List Char → List Char
  | [] => []
  | c :: cs => if c = '!' then [] else c :: charsBeforeBang cs

/-- `e.source.split("!")[0]` as a `String` operation. -/
def sourceNick (source : String) : String :=
  ⟨charsBeforeBang source.data⟩

/-- `BridgeIrcBot.on_pubmsg` (irc_bot.py lines 323-334): the sequence
of `urbit_client.send_message` calls — `(resource ship, urbit channel,
rendered text)` — made for one inbound public message with source
channel `target`, full source prefix `source` and body `text`. -/
def on_pubmsg (pairings : List ChannelPairing) (target source text : String) :
    List (String × String × String) :=
  let urbit_channels := pairings.filter (fun chan => chan.irc_channel = target)
  if urbit_channels.length > 0 then
    urbit_channels.map (fun uc =>
      (uc.resource_ship, uc.urbit_channel, sourceNick source ++ ": " ++ text))
  else []

/-- One inbound Urbit message as `urbit_message_handler` sees it. -/
structure UrbitMessage where
  host_ship : String
  resource_name : String
  author : String
  full_text : String
deriving DecidableEq, Repr

/-- `urbit_bot.start.urbit_message_handler` (irc_bridge.py lines
52-58): the list of `(irc_channel, rendered text)` tuples passed to
`self.sender.send` for one inbound Urbit message. -/
def urbit_message_handler (pairings : List ChannelPairing) (m : UrbitMessage) :
    List (String × String) :=
  let matched_ships := pairings.filter (fun ship => ship.resource_ship = m.host_ship)
  if matched_ships.length > 0 then
    matched_ships.foldr (fun ms acc =>
      if ms.urbit_channel = m.resource_name then
        (ms.irc_channel, m.author ++ ": " ++ m.full_text) :: acc
      else acc) []
  else []

theorem foldr_matched_sends (L : List ChannelPairing) (rn : String)
    (txt : String) :
    L.foldr (fun ms acc =>
        if ms.urbit_channel = rn then (ms.irc_channel, txt) :: acc else acc) [] =
      (L.filter fun ms => ms.urbit_channel = rn).map fun ms => (ms.irc_channel, txt) := by
  induction L with
  | nil => rfl
  | cons p rest ih =>
    by_cases hp : p.urbit_channel = rn
    · simp [List.foldr_cons, hp, ih]
    · simp [List.foldr_cons, hp, ih]

/-- C8: an inbound public message produces one sink-adapter send per
pairing whose `irc_channel` equals its source channel — so a message
whose source channel matches no pairing is never passed to the sink
adapter, without error — and symmetrically the Urbit-to-IRC handler
enqueues one tuple per pairing whose `resource_ship` and
`urbit_channel` match the message's host ship and resource name. -/
theorem relay_matching (pairings : List ChannelPairing) (target source text : String)
    (m : UrbitMessage) :
    on_pubmsg pairings target source text =
      ((pairings.filter fun chan => chan.irc_channel = target).map fun uc =>
        (uc.resource_ship, uc.urbit_channel, sourceNick source ++ ": " ++ text)) ∧
    ((∀ p ∈ pairings, p.irc_channel ≠ target) →
      on_pubmsg pairings target source text = []) ∧
    urbit_message_handler pairings m =
      (((pairings.filter fun p => p.resource_ship = m.host_ship).filter
          fun p => p.urbit_channel = m.resource_name).map
        fun p => (p.irc_channel, m.author ++ ": " ++ m.full_text)) := by
  refine ⟨?_, ?_, ?_⟩
  · unfold on_pubmsg
    by_cases h : (pairings.filter fun chan => chan.irc_channel = target).length > 0
    · rw [if_pos h]
    · rw [if_neg h]
      have : (pairings.filter fun chan => chan.irc_channel = target) = [] := by
        cases hf : pairings.filter fun chan => chan.irc_channel = target
        · rfl
        · rw [hf] at h; simp at h
      rw [this]
      rfl
  · intro hnone
    unfold on_pubmsg
    have : (pairings.filter fun chan => chan.irc_channel = target) = [] := by
      rw [List.filter_eq_nil_iff]
      intro p hp
      simpa using hnone p hp
    rw [this]
    rfl
  · unfold urbit_message_handler
    by_cases h : (pairings.filter fun ship => ship.resource_ship = m.host_ship).length > 0
    · rw [if_pos h, foldr_matched_sends]
    · rw [if_neg h]
      have : (pairings.filter fun ship => ship.resource_ship = m.host_ship) = [] := by
        cases hf : pairings.filter fun ship => ship.resource_ship = m.host_ship
        · rfl
        · rw [hf] at h; simp at h
      rw [this]
      rfl

/-- The pairing list used by the `relay_matching` witness. -/
def demoPairings : List ChannelPairing :=
  [{ irc_channel := "#c", resource_ship := "~zod", urbit_channel := "general" },
   { irc_channel := "#c", resource_ship := "~bus", urbit_channel := "extra" },
   { irc_channel := "#d", resource_ship := "~zod", urbit_channel := "other" }]

/-- Witness for `relay_matching`: a message on `#c` is sent once per
matching pairing (twice), a message on unpaired `#z` is never sent,
and an Urbit message on `~zod`/`general` is enqueued exactly for the
`#c` pairing. -/
theorem relay_matching_witness :
    on_pubmsg demoPairings "#c" "alice!u@h" "hi" =
      [("~zod", "general", "alice: hi"), ("~bus", "extra", "alice: hi")] ∧
    (∀ p ∈ demoPairings, p.irc_channel ≠ "#z") ∧
    on_pubmsg demoPairings "#z" "alice!u@h" "hi" = [] ∧
    urbit_message_handler demoPairings
      { host_ship := "~zod", resource_name := "general",
        author := "~wet", full_text := "yo" } = [("#c", "~wet: yo")] := by
  have h := relay_matching demoPairings "#z" "alice!u@h" "hi"
    { host_ship := "~zod", resource_name := "general",
      author := "~wet", full_text := "yo" }
  exact ⟨by decide, by decide, h.2.1 (by decide), by decide⟩

/-! ## Sink session management (`urbit_client`, irc_bridge.py
lines 16-41) -/

/-- Sink-side session state of `urbit_client`.  `client` is the value
of `self.client`: `some id` is a live, connected `quinnat.Quinnat`
session (identified by a serial number), `none` is Python `None`.
`sent` records the successful `post_message` calls. -/
structure UrbitClientState where
  client : Option ℕ
  nextSession : ℕ
  sent : List (String × String × String)
deriving DecidableEq, Repr

/-- `urbit_client.connect` (lines 21-27): builds and connects a new
`Quinnat` session and assigns it to `self.client`; having no `return`
statement, the call returns Python `None` (the second component). -/
def urbit_connect (s : UrbitClientState) : UrbitClientState × Option ℕ :=
  ({ s with client := some s.nextSession, nextSession := s.nextSession + 1 }, none)

/-- `urbit_client.__init__` (lines 17-19), starting with no session. -/
def urbit_client_init : UrbitClientState :=
  (urbit_connect { client := none, nextSession := 0, sent := [] }).1

/-- `urbit_client.reconnect` (lines 39-41): deletes the ship session,
then runs `self.client = self.connect()` — storing the `None` that
`connect` returns, which clobbers the fresh session `connect` had just
assigned to `self.client`. -/
def urbit_reconnect (s : UrbitClientState) : UrbitClientState :=
  let p := urbit_connect s
  { p.1 with client := p.2 }

/-- Outcome of one `urbit_client.send_message` call. -/
inductive SendOutcome where
  | delivered (s : UrbitClientState)
  | reconnectedAfterDecodeFailure (s : UrbitClientState)
  | attributeErrorCrash
deriving DecidableEq, Repr

/-- `urbit_client.send_message` (lines 29-37).  `decodeFails` says
whether this `post_message` call raises `UnicodeDecodeError`, the
only exception the `except` clause catches.  When `self.client` is
`None`, the attribute access `self.client.post_message` raises
`AttributeError`, which nothing catches. -/
def send_message (s : UrbitClientState) (resource_ship channel message : String)
    (decodeFails : Bool) : SendOutcome :=
  match s.client with
  | none => SendOutcome.attributeErrorCrash
  | some _ =>
    if decodeFails then SendOutcome.reconnectedAfterDecodeFailure (urbit_reconnect s)
    else SendOutcome.delivered
      { s with sent := s.sent ++ [(resource_ship, channel, message)] }

/-- C2 evaluated at the failing input: a decode failure during a send
is caught and triggers the sink reconnect, and the in-flight message
is lost (not retried, `sent` still empty); but `reconnect` leaves
`self.client = None` because it stores the `None` return of
`connect()`, so the next, distinct message's send raises an uncaught
`AttributeError` instead of being delivered — the code contradicts
the claim's (and spec's) promise that the next enqueued message is
still delivered after the sink reconnect completes. -/
theorem decode_failure_next_send_crashes :
    send_message urbit_client_init "~zod" "general" "m1" true =
      SendOutcome.reconnectedAfterDecodeFailure (urbit_reconnect urbit_client_init) ∧
    (urbit_reconnect urbit_client_init).client = none ∧
    (urbit_reconnect urbit_client_init).sent = [] ∧
    send_message (urbit_reconnect urbit_client_init) "~zod" "general" "m2" false =
      SendOutcome.attributeErrorCrash := by
  refine ⟨?_, ?_, ?_, ?_⟩ <;> decide
